import Mathlib

/-!
Verification of the `apigateway` package (`src/apigateway/apigateway.go`).

Go strings and byte slices are modelled as lists of bytes (`List Nat`); all
string operations used by the source (`strings.HasPrefix`, `strings.Contains`,
Go's `<` on strings, `len`, slicing) are byte-wise, so this embedding is exact.
-/

/-- Bytes of a Go string or byte slice (`string` / `[]byte`). -/
abbrev GoBytes := List Nat

/-- Byte list of an ASCII string literal, for writing concrete inputs. -/
def bytes (s : String) : GoBytes := s.data.map Char.toNat

/-- Model of Go `strings.HasPrefix(s, p)`: `p` is a byte-wise prefix of `s`. -/
def goHasPrefix (s p : GoBytes) : Bool := p.isPrefixOf s

/-- Helper for `goContains`: scans every suffix of the second argument for the
first argument as a leading block. -/
def containsFrom (sub : GoBytes) : GoBytes → Bool
  | [] => sub.isEmpty
  | b :: rest => sub.isPrefixOf (b :: rest) || containsFrom sub rest

/-- Model of Go `strings.Contains(s, sub)`: `sub` occurs as a contiguous
byte substring of `s`. -/
def goContains (s sub : GoBytes) : Bool := containsFrom sub s

/-- Translation of `isPrintableTextContent` (apigateway.go:89-98): a content
type is printable when it starts with "text/" or contains "json", "xml" or
"html" (case-sensitive). -/
def isPrintableTextContent (contentType : GoBytes) : Bool :=
  if goHasPrefix contentType (bytes "text/") ||
      goContains contentType (bytes "json") ||
      goContains contentType (bytes "xml") ||
      goContains contentType (bytes "html") then
    true
  else
    false

/-- Shape of the body-preview log line emitted by the `BodyDump` handler in
`configEcho` (apigateway.go:128-139): either both previews verbatim, or the
request preview with a placeholder naming the response content type. -/
inductive BodyLogLine where
  | printable (url : GoBytes) (reqLen : Nat) (reqShown : GoBytes)
      (resLen : Nat) (resShown : GoBytes)
  | nonPrintable (url : GoBytes) (reqLen : Nat) (reqShown : GoBytes)
      (resLen : Nat) (contentType : GoBytes)
  deriving DecidableEq

/-- Translation of the `BodyDump` handler body (apigateway.go:128-139).
`lq := int(math.Min(float64(len(reqBody)), 2000))` is modelled as
`min reqBody.length 2000`: `float64` conversion is exact below `2^53` and the
minimum with the exactly representable `2000` agrees with the integer minimum
for every length. `reqContentType` models the request content type available
on the echo context; the source never reads it, so it is an unused parameter. -/
def bodyDumpHandler (url reqContentType reqBody resBody resContentType : GoBytes) :
    BodyLogLine :=
  let lq := min reqBody.length 2000
  let lp := min resBody.length 2000
  if isPrintableTextContent resContentType || resBody.length == 0 then
    .printable url reqBody.length (reqBody.take lq) resBody.length (resBody.take lp)
  else
    .nonPrintable url reqBody.length (reqBody.take lq) resBody.length resContentType

/-- Whether a body log line is the placeholder ("Non-printable ContentType") form. -/
def BodyLogLine.isNonPrintableLine : BodyLogLine → Bool
  | .printable .. => false
  | .nonPrintable .. => true

/-- Request-body bytes shown in the line (present in both forms). -/
def BodyLogLine.reqShownField : BodyLogLine → GoBytes
  | .printable _ _ r _ _ => r
  | .nonPrintable _ _ r _ _ => r

/-- Response-body bytes shown in the line, when the response is shown verbatim. -/
def BodyLogLine.resShownField : BodyLogLine → Option GoBytes
  | .printable _ _ _ _ r => some r
  | .nonPrintable .. => none

/-- Content type named by the placeholder, when the placeholder form is used. -/
def BodyLogLine.namedContentType : BodyLogLine → Option GoBytes
  | .printable .. => none
  | .nonPrintable _ _ _ _ ct => some ct

/-- Severity levels of the logrus logging collaborator. -/
inductive LogLevel where
  | panicLevel | fatalLevel | errorLevel | warnLevel | infoLevel | debugLevel | traceLevel
  deriving DecidableEq

/-- ASCII lowercasing of one byte, as Go `strings.ToLower` acts on ASCII. -/
def toLowerByte (b : Nat) : Nat := if 65 ≤ b ∧ b ≤ 90 then b + 32 else b

/-- Byte-wise ASCII lowercasing. `logrus.ParseLevel` lowercases with Go
`strings.ToLower`; the recognised level names are pure ASCII and no non-ASCII
code point lowercases onto their letters, so the ASCII model decides parse
success and failure exactly as the library does. -/
def goToLower (s : GoBytes) : GoBytes := s.map toLowerByte

/-- Model of the external `logrus.ParseLevel` (sirupsen/logrus): lowercases
the input and recognises the seven level names plus the alias "warning";
anything else is a parse error, reported as `none`. -/
def parseLevel (lvl : GoBytes) : Option LogLevel :=
  let l := goToLower lvl
  if l = bytes "panic" then some .panicLevel
  else if l = bytes "fatal" then some .fatalLevel
  else if l = bytes "error" then some .errorLevel
  else if l = bytes "warn" then some .warnLevel
  else if l = bytes "warning" then some .warnLevel
  else if l = bytes "info" then some .infoLevel
  else if l = bytes "debug" then some .debugLevel
  else if l = bytes "trace" then some .traceLevel
  else none

/-- Modelled from the spec: destination of a configured logger. The file case
records the configuration handed to the `pkgx/lumberjackx` rotating writer
(repository code not under src/): filename, size limit in megabytes, retained
backup count, age limit in days, and the compression and local-time flags. -/
inductive Sink where
  | stdoutSink
  | stderrSink
  | fileSink (filename : GoBytes) (maxSize maxBackups maxAge : Int)
      (compress localTime : Bool)
  deriving DecidableEq

/-- Formatter state relevant to the source: `log.TextFormatter{QuoteEmptyFields: true}`. -/
structure TextFormatter where
  quoteEmptyFields : Bool
  deriving DecidableEq

/-- State of one logrus-style logger: output destination, level, formatter. -/
structure LoggerState where
  out : Sink
  level : LogLevel
  formatter : TextFormatter
  deriving DecidableEq

/-- Translation of `LogConfig` (apigateway.go:19-25). -/
structure LogConfig where
  Output : GoBytes
  Level : GoBytes
  Size : Int
  BackNum : Int
  AgeDays : Int

/-- Modelled from the spec: `pkgx/log.New()` (repository code not under src/)
returns a fresh logger. Its defaults are irrelevant to every claim because
`initAccessLog` overwrites output, level and formatter on each success path
and the gateway is discarded on the failure path. -/
def logNew : LoggerState :=
  { out := .stdoutSink, level := .infoLevel, formatter := { quoteEmptyFields := false } }

/-- Translation of `initAccessLog` (apigateway.go:53-87): ensures the gateway
logger exists, parses the level (the only error source), selects the output
sink by the switch on `lc.Output`, then sets the level and the
quote-empty-fields text formatter. The Go method mutates `agw.Logger` and
returns an error; here it returns the final logger state or the parse error
(carrying the offending level string). -/
def initAccessLog (prevLogger : Option LoggerState) (lc : LogConfig) :
    Except GoBytes LoggerState :=
  let logger := match prevLogger with
    | none => logNew
    | some l => l
  match parseLevel lc.Level with
  | none => .error lc.Level
  | some level =>
    let logger :=
      if lc.Output = bytes "stdout" then { logger with out := .stdoutSink }
      else if lc.Output = bytes "stderr" then { logger with out := .stderrSink }
      else if lc.Output = [] then { logger with out := .stdoutSink }
      else { logger with out := .fileSink lc.Output lc.Size lc.BackNum lc.AgeDays true true }
    let logger := { logger with level := level }
    let logger := { logger with formatter := { quoteEmptyFields := true } }
    .ok logger

/-- Identifies which logger a log write goes through. -/
inductive LogTarget where
  | globalStd
  | gatewayLogger
  deriving DecidableEq

/-- Modelled from the spec: process-wide logging state. `pkgx/log`
(repository code not under src/) keeps one package-global standard logger;
`log.Infof` and `log.Errorf` write through it and `log.StandardLogger()`
returns it. -/
structure World where
  globalLogger : LoggerState
  deriving DecidableEq

/-- Static CORS policy record (middleware.CORSConfig in the source). -/
structure CorsConfig where
  allowOrigins : List GoBytes
  exposeHeaders : List GoBytes
  allowMethods : List GoBytes
  allowHeaders : List GoBytes
  allowCredentials : Bool
  deriving DecidableEq

/-- Observable state of the echo instance after configuration: which hooks
are installed and where their output is wired. -/
structure EchoState where
  bodyDumpTarget : Option LogTarget
  accessLogOutput : Option Sink
  cors : Option CorsConfig
  deriving DecidableEq

/-- Fresh echo instance (`echo.New()`): no middleware installed yet. -/
def echoNew : EchoState :=
  { bodyDumpTarget := none, accessLogOutput := none, cors := none }

/-- Translation of `configEcho` (apigateway.go:100-165): installs the body
dump hook, whose handler writes through the package-global `log.Infof`; the
access-line middleware, whose output writer is `log.StandardLogger().Out`
read from the global logger at configuration time; and the allow-all CORS
policy with credentials enabled. -/
def configEcho (w : World) (e : EchoState) : EchoState :=
  { e with
    bodyDumpTarget := some .globalStd
    accessLogOutput := some w.globalLogger.out
    cors := some
      { allowOrigins := [bytes "*"]
        exposeHeaders := [bytes "*"]
        allowMethods := [bytes "*"]
        allowHeaders := [bytes "*"]
        allowCredentials := true } }

/-- Translation of `ApiGateway` (apigateway.go:27-30). -/
structure ApiGateway where
  echo : EchoState
  logger : LoggerState
  deriving DecidableEq

/-- Translation of `New` (apigateway.go:32-42): fresh echo instance, then
`initAccessLog` (whose failure aborts construction with no gateway), then
`configEcho`. The world is threaded through to record that construction reads
but never writes the global logger. -/
def New (w : World) (lc : LogConfig) : Except GoBytes ApiGateway × World :=
  match initAccessLog none lc with
  | .error e => (.error e, w)
  | .ok logger => (.ok { echo := configEcho w echoNew, logger := logger }, w)

/-- Targets of the per-request log writes made by the middleware installed on
a gateway: the body-preview line through the installed body dump hook, in
source order before the access line, which goes to the writer captured by the
logger middleware. -/
def requestLogWriteTargets (g : ApiGateway) : List LogTarget :=
  (match g.echo.bodyDumpTarget with
    | some t => [t]
    | none => []) ++
  (match g.echo.accessLogOutput with
    | some _ => [LogTarget.globalStd]
    | none => [])

instance {ε α : Type} [DecidableEq ε] [DecidableEq α] : DecidableEq (Except ε α) := fun a b =>
  match a, b with
  | .error x, .error y =>
    if h : x = y then .isTrue (by rw [h]) else .isFalse (by simp [h])
  | .ok x, .ok y =>
    if h : x = y then .isTrue (by rw [h]) else .isFalse (by simp [h])
  | .error _, .ok _ => .isFalse (by simp)
  | .ok _, .error _ => .isFalse (by simp)

/-- Lifecycle phase of the underlying server. -/
inductive SrvPhase where
  | unstarted | serving | stopped
  deriving DecidableEq

/-- Abstract state of the echo server seen by shutdown: its phase and, when
serving, the further seconds its in-flight requests still need to finish. -/
structure EchoSrv where
  phase : SrvPhase
  drainSeconds : Nat
  deriving DecidableEq

/-- Errors of the external collaborators that the source reacts to. -/
inductive GoErr where
  | deadlineExceeded
  | errServerClosed
  | bindRefused
  deriving DecidableEq

/-- Modelled from the documented contract of the external `echo.Shutdown` /
`net/http.Server.Shutdown` collaborator: under a deadline of `grace` seconds
it stops accepting new connections and waits for in-flight requests,
returning `none` (clean) if they finish within the deadline and
`some deadlineExceeded` (forced) otherwise; on a server never started or
already stopped it returns `none` immediately. It always returns after at
most `grace` seconds (the middle component is the seconds it blocked), and
the server no longer serves afterwards. -/
def echoShutdownModel (s : EchoSrv) (grace : Nat) : Option GoErr × Nat × EchoSrv :=
  match s.phase with
  | .serving =>
    if s.drainSeconds ≤ grace then
      (none, s.drainSeconds, { phase := .stopped, drainSeconds := 0 })
    else
      (some .deadlineExceeded, grace, { phase := .stopped, drainSeconds := 0 })
  | .unstarted => (none, 0, { s with phase := .stopped })
  | .stopped => (none, 0, { s with phase := .stopped })

/-- Log lines of the lifecycle functions; the start lines carry the address
they name. -/
inductive LifecycleLog where
  | failedToClose
  | closeService
  | failedToBind (addr : GoBytes)
  | startedListening (addr : GoBytes)
  deriving DecidableEq

/-- Whether a lifecycle log line is the started-listening success line. -/
def LifecycleLog.isStartedLine : LifecycleLog → Bool
  | .startedListening _ => true
  | _ => false

/-- Grace period used by `shutdownEcho` (apigateway.go:178):
`context.WithTimeout(context.Background(), 5*time.Second)`. -/
def shutdownGraceSeconds : Nat := 5

/-- Translation of `shutdownEcho` (apigateway.go:177-185): shuts the server
down under the fixed 5-second deadline, logs the failed-to-close error line
when shutdown reported an error, and always logs the close line. Returns the
final server state, the log lines, and the seconds the call blocked. -/
def shutdownEcho (s : EchoSrv) : EchoSrv × List LifecycleLog × Nat :=
  match echoShutdownModel s shutdownGraceSeconds with
  | (some _, elapsed, s') => (s', [.failedToClose, .closeService], elapsed)
  | (none, elapsed, s') => (s', [.closeService], elapsed)

/-- Translation of `Stop` (apigateway.go:49-51). -/
def Stop (s : EchoSrv) : EchoSrv × List LifecycleLog × Nat := shutdownEcho s

/-- Outcome of the external bind-and-serve call made by `startEcho`. Modelled
from the documented contract of `echo.Start` / `net/http.Server.Serve`: the
bind either fails immediately with an error, or succeeds, in which case the
call blocks serving and returns only once the server is shut down, and then
with the non-nil error `http.ErrServerClosed`; it never returns nil after a
successful bind. -/
inductive StartOutcome where
  | bindFailed (e : GoErr)
  | servedThenClosed
  deriving DecidableEq

/-- Error value with which the external bind-and-serve call returns. -/
def echoStartModel : StartOutcome → Option GoErr
  | .bindFailed e => some e
  | .servedThenClosed => some .errServerClosed

/-- Translation of `startEcho` (apigateway.go:167-175): on a non-nil error
from the underlying start call, logs the failed-to-bind line naming the
address and returns the error; only a nil error would log the
started-listening line. -/
def startEcho (addr : GoBytes) (o : StartOutcome) : Option GoErr × List LifecycleLog :=
  match echoStartModel o with
  | some e => (some e, [.failedToBind addr])
  | none => (none, [.startedListening addr])

/-- Translation of the address formatting in `Run` (apigateway.go:44-47):
`fmt.Sprintf("%s:%s", ip, port)`. -/
def formatAddr (ip port : GoBytes) : GoBytes := ip ++ bytes ":" ++ port

/-- Route descriptor copied by `showEcho` (apigateway.go:189-195): method and
path of one registered route. -/
structure Route where
  m : GoBytes
  p : GoBytes
  deriving DecidableEq

instance : Inhabited Route := ⟨⟨[], []⟩⟩

/-- Model of Go string comparison `s < t`: byte-wise lexicographic order. -/
def goStrLt : GoBytes → GoBytes → Bool
  | [], [] => false
  | [], _ :: _ => true
  | _ :: _, [] => false
  | a :: as, b :: bs => if a < b then true else if b < a then false else goStrLt as bs

/-- Less function passed to sort.Slice in `showEcho` (apigateway.go:196):
`routes[i].p < routes[j].p`. -/
def routeLt (r s : Route) : Bool := goStrLt r.p s.p

/-!
Translation of the Go standard library sort used by `sort.Slice`
(src/sort/zsortfunc.go, Go 1.19 and later: pattern-defeating quicksort).
`sort.Slice` is documented as NOT stable. Indices are `Nat`; every
subtraction below is applied only where the Go original is non-negative on
reachable states. Loops without a structurally decreasing argument take
explicit fuel large enough for every terminating run. -/

/-- Element of a Go slice at index `i` (all indices used by the sort are in
range; out-of-range reads return the default and never occur in runs that
matter). -/
def getE {α : Type} [Inhabited α] (d : List α) (i : Nat) : α := d.getD i default

/-- Go slice `Swap(i, j)`. -/
def swapE {α : Type} [Inhabited α] (d : List α) (i j : Nat) : List α :=
  (d.set i (getE d j)).set j (getE d i)

/-- Inner loop of Go `insertionSort_func`: `for j := i; j > a && Less(j, j-1); j--`. -/
def insSortInner {α : Type} [Inhabited α] (lt : α → α → Bool) (a : Nat) (d : List α) :
    Nat → List α
  | 0 => d
  | j+1 =>
    if a ≤ j && lt (getE d (j+1)) (getE d j) then
      insSortInner lt a (swapE d (j+1) j) j
    else d

/-- Outer loop of Go `insertionSort_func`: `for i := a + 1; i < b; i++`; the
final argument is fuel, at least the number of remaining iterations. -/
def insSortOuter {α : Type} [Inhabited α] (lt : α → α → Bool) (a b : Nat) (d : List α)
    (i : Nat) : Nat → List α
  | 0 => d
  | fuel+1 => if i < b then insSortOuter lt a b (insSortInner lt a d i) (i+1) fuel else d

/-- Go `insertionSort_func(data, a, b)`: insertion sort of `d[a:b)`; fuel `b`
covers the at most `b - a` loop iterations. -/
def insertionSortFunc {α : Type} [Inhabited α] (lt : α → α → Bool) (d : List α)
    (a b : Nat) : List α :=
  insSortOuter lt a b d (a+1) b

/-- Loop of Go `siftDown_func` (root walks down the heap). -/
def siftDownLoop {α : Type} [Inhabited α] (lt : α → α → Bool) (hi first : Nat)
    (d : List α) (root : Nat) : Nat → List α
  | 0 => d
  | fuel+1 =>
    let child := 2*root + 1
    if hi ≤ child then d
    else
      let child :=
        if child + 1 < hi && lt (getE d (first+child)) (getE d (first+child+1)) then
          child + 1
        else child
      if !lt (getE d (first+root)) (getE d (first+child)) then d
      else siftDownLoop lt hi first (swapE d (first+root) (first+child)) child fuel

/-- Go `siftDown_func(data, lo, hi, first)`. -/
def siftDownFunc {α : Type} [Inhabited α] (lt : α → α → Bool) (d : List α)
    (lo hi first : Nat) : List α :=
  siftDownLoop lt hi first d lo (hi+1)

/-- Heap construction of Go `heapSort_func`: `for i := (hi-1)/2; i >= 0; i--`;
the argument is one past the next `i`. -/
def heapBuild {α : Type} [Inhabited α] (lt : α → α → Bool) (hi first : Nat)
    (d : List α) : Nat → List α
  | 0 => d
  | i+1 => heapBuild lt hi first (siftDownFunc lt d i hi first) i

/-- Pop phase of Go `heapSort_func`: `for i := hi - 1; i >= 0; i--`. -/
def heapPop {α : Type} [Inhabited α] (lt : α → α → Bool) (first : Nat)
    (d : List α) : Nat → List α
  | 0 => d
  | i+1 => heapPop lt first (siftDownFunc lt (swapE d first (first+i)) 0 i first) i

/-- Go `heapSort_func(data, a, b)`. -/
def heapSortFunc {α : Type} [Inhabited α] (lt : α → α → Bool) (d : List α)
    (a b : Nat) : List α :=
  let first := a
  let hi := b - a
  heapPop lt first (heapBuild lt hi first d ((hi-1)/2 + 1)) hi

/-- Loop of Go `reverseRange_func`. -/
def reverseRangeLoop {α : Type} [Inhabited α] (d : List α) (i j : Nat) : Nat → List α
  | 0 => d
  | fuel+1 => if i < j then reverseRangeLoop (swapE d i j) (i+1) (j-1) fuel else d

/-- Go `reverseRange_func(data, a, b)`: reverses `d[a:b)`. -/
def reverseRangeFunc {α : Type} [Inhabited α] (d : List α) (a b : Nat) : List α :=
  reverseRangeLoop d a (b-1) b

/-- Go `order2_func`: orders two indices by the data under them, counting a
swap when they were reversed. -/
def order2Func {α : Type} [Inhabited α] (lt : α → α → Bool) (d : List α)
    (a b swaps : Nat) : Nat × Nat × Nat :=
  if lt (getE d b) (getE d a) then (b, a, swaps+1) else (a, b, swaps)

/-- Go `median_func`: index of the median of three indices. -/
def medianFunc {α : Type} [Inhabited α] (lt : α → α → Bool) (d : List α)
    (a b c swaps : Nat) : Nat × Nat :=
  let (a, b, swaps) := order2Func lt d a b swaps
  let (b, _c, swaps) := order2Func lt d b c swaps
  let (_a, b, swaps) := order2Func lt d a b swaps
  (b, swaps)

/-- Go `medianAdjacent_func`: median of `d[a-1], d[a], d[a+1]`. -/
def medianAdjacentFunc {α : Type} [Inhabited α] (lt : α → α → Bool) (d : List α)
    (a swaps : Nat) : Nat × Nat :=
  medianFunc lt d (a-1) a (a+1) swaps

/-- Sortedness hint produced by Go `choosePivot_func`. -/
inductive SortedHint where
  | unknownHint | increasingHint | decreasingHint
  deriving DecidableEq

/-- Go `choosePivot_func(data, a, b)`: static pivot for short ranges,
median-of-three from 8 up, Tukey ninther from 50 up; 0 sampled inversions
hint increasing, all 12 hint decreasing. -/
def choosePivotFunc {α : Type} [Inhabited α] (lt : α → α → Bool) (d : List α)
    (a b : Nat) : Nat × SortedHint :=
  let l := b - a
  let i := a + l/4*1
  let j := a + l/4*2
  let k := a + l/4*3
  let (i, j, k, swaps) :=
    if 8 ≤ l then
      let (i, j, k, swaps) :=
        if 50 ≤ l then
          let (i, s) := medianAdjacentFunc lt d i 0
          let (j, s) := medianAdjacentFunc lt d j s
          let (k, s) := medianAdjacentFunc lt d k s
          (i, j, k, s)
        else (i, j, k, 0)
      let (j, swaps) := medianFunc lt d i j k swaps
      (i, j, k, swaps)
    else (i, j, k, 0)
  if swaps = 0 then (j, .increasingHint)
  else if swaps = 12 then (j, .decreasingHint)
  else (j, .unknownHint)

/-- Forward scan of Go `partialInsertionSort_func`:
`for i < b && !Less(i, i-1) { i++ }`. -/
def pinsScan {α : Type} [Inhabited α] (lt : α → α → Bool) (b : Nat) (d : List α)
    (i : Nat) : Nat → Nat
  | 0 => i
  | fuel+1 =>
    if i < b && !lt (getE d i) (getE d (i-1)) then pinsScan lt b d (i+1) fuel else i

/-- Left shift of Go `partialInsertionSort_func`:
`for j := i - 1; j >= 1; j--` with break on `!Less(j, j-1)`. -/
def pinsShiftLeft {α : Type} [Inhabited α] (lt : α → α → Bool) (d : List α) :
    Nat → List α
  | 0 => d
  | j+1 =>
    if !lt (getE d (j+1)) (getE d j) then d
    else pinsShiftLeft lt (swapE d (j+1) j) j

/-- Right shift of Go `partialInsertionSort_func`:
`for j := i + 1; j < b; j++` with break on `!Less(j, j-1)`. -/
def pinsShiftRight {α : Type} [Inhabited α] (lt : α → α → Bool) (b : Nat)
    (d : List α) (j : Nat) : Nat → List α
  | 0 => d
  | fuel+1 =>
    if j < b then
      if !lt (getE d j) (getE d (j-1)) then d
      else pinsShiftRight lt b (swapE d j (j-1)) (j+1) fuel
    else d

/-- Main loop of Go `partialInsertionSort_func` over at most `maxSteps = 5`
out-of-order pairs; returns whether the range ended up sorted, with the data. -/
def pinsLoop {α : Type} [Inhabited α] (lt : α → α → Bool) (a b : Nat) (d : List α)
    (i : Nat) : Nat → Bool × List α
  | 0 => (false, d)
  | steps+1 =>
    let i := pinsScan lt b d i (b+1)
    if i = b then (true, d)
    else if b - a < 50 then (false, d)
    else
      let d := swapE d i (i-1)
      let d := if 2 ≤ i - a then pinsShiftLeft lt d (i-1) else d
      let d := if 2 ≤ b - i then pinsShiftRight lt b d (i+1) (b+1) else d
      pinsLoop lt a b d i steps

/-- Go `partialInsertionSort_func(data, a, b)`. -/
def partialInsertionSortFunc {α : Type} [Inhabited α] (lt : α → α → Bool)
    (d : List α) (a b : Nat) : Bool × List α :=
  pinsLoop lt a b d (a+1) 5

/-- Truncation to a Go `uint64`. -/
def u64 (n : Nat) : Nat := n % (2^64)

/-- One step of the Go `xorshift` generator used by `breakPatterns_func`. -/
def xorshiftNext (r : Nat) : Nat :=
  let r := u64 (Nat.xor r (u64 (Nat.shiftLeft r 13)))
  let r := Nat.xor r (Nat.shiftRight r 17)
  u64 (Nat.xor r (u64 (Nat.shiftLeft r 5)))

/-- Go `bits.Len(n)`: number of bits of n. -/
def goBitsLen (n : Nat) : Nat := if n = 0 then 0 else Nat.log2 n + 1

/-- Go `nextPowerOfTwo(length)` from the sort package: `1 << bits.Len(length)`. -/
def nextPowerOfTwo (length : Nat) : Nat := Nat.shiftLeft 1 (goBitsLen length)

/-- Go `breakPatterns_func(data, a, b)`: swaps three pivot-candidate slots
with pseudo-random positions (xorshift seeded with the range length). -/
def breakPatternsFunc {α : Type} [Inhabited α] (d : List α) (a b : Nat) : List α :=
  let length := b - a
  if 8 ≤ length then
    let modulus := nextPowerOfTwo length
    let idx := a + (length/4)*2 - 1
    let r1 := xorshiftNext (u64 length)
    let r2 := xorshiftNext r1
    let r3 := xorshiftNext r2
    let step := fun (d : List α) (i rnd : Nat) =>
      let other := Nat.land rnd (modulus - 1)
      let other := if length ≤ other then other - length else other
      swapE d (idx - 1 + i) (a + other)
    step (step (step d 0 r1) 1 r2) 2 r3
  else d

/-- Forward scan of Go `partition_func`: `for i <= j && Less(i, a) { i++ }`. -/
def partScanI {α : Type} [Inhabited α] (lt : α → α → Bool) (d : List α)
    (a j i : Nat) : Nat → Nat
  | 0 => i
  | fuel+1 =>
    if i ≤ j && lt (getE d i) (getE d a) then partScanI lt d a j (i+1) fuel else i

/-- Backward scan of Go `partition_func`: `for i <= j && !Less(j, a) { j-- }`. -/
def partScanJ {α : Type} [Inhabited α] (lt : α → α → Bool) (d : List α)
    (a i j : Nat) : Nat → Nat
  | 0 => j
  | fuel+1 =>
    if i ≤ j && !lt (getE d j) (getE d a) then partScanJ lt d a i (j-1) fuel else j

/-- Main loop of Go `partition_func`. -/
def partLoop {α : Type} [Inhabited α] (lt : α → α → Bool) (a : Nat) (d : List α)
    (i j : Nat) : Nat → List α × Nat × Nat
  | 0 => (d, i, j)
  | fuel+1 =>
    let i := partScanI lt d a j i (j+2)
    let j := partScanJ lt d a i j (j+2)
    if j < i then (d, i, j)
    else partLoop lt a (swapE d i j) (i+1) (j-1) fuel

/-- Go `partition_func(data, a, b, pivot)`: Hoare partition around the pivot
moved to position a; returns the data, the final pivot position and whether
the range was already partitioned. -/
def partitionFunc {α : Type} [Inhabited α] (lt : α → α → Bool) (d : List α)
    (a b pivot : Nat) : List α × Nat × Bool :=
  let d := swapE d a pivot
  let i := a + 1
  let j := b - 1
  let i := partScanI lt d a j i (j+2)
  let j := partScanJ lt d a i j (j+2)
  if j < i then
    (swapE d j a, j, true)
  else
    let d := swapE d i j
    let (d, _i, j) := partLoop lt a d (i+1) (j-1) (b+2)
    (swapE d j a, j, false)

/-- Forward scan of Go `partitionEqual_func`: `for i <= j && !Less(a, i) { i++ }`. -/
def partEqScanI {α : Type} [Inhabited α] (lt : α → α → Bool) (d : List α)
    (a j i : Nat) : Nat → Nat
  | 0 => i
  | fuel+1 =>
    if i ≤ j && !lt (getE d a) (getE d i) then partEqScanI lt d a j (i+1) fuel else i

/-- Backward scan of Go `partitionEqual_func`: `for i <= j && Less(a, j) { j-- }`. -/
def partEqScanJ {α : Type} [Inhabited α] (lt : α → α → Bool) (d : List α)
    (a i j : Nat) : Nat → Nat
  | 0 => j
  | fuel+1 =>
    if i ≤ j && lt (getE d a) (getE d j) then partEqScanJ lt d a i (j-1) fuel else j

/-- Main loop of Go `partitionEqual_func`; returns the data and the final i. -/
def partEqLoop {α : Type} [Inhabited α] (lt : α → α → Bool) (a : Nat) (d : List α)
    (i j : Nat) : Nat → List α × Nat
  | 0 => (d, i)
  | fuel+1 =>
    let i := partEqScanI lt d a j i (j+2)
    let j := partEqScanJ lt d a i j (j+2)
    if j < i then (d, i)
    else partEqLoop lt a (swapE d i j) (i+1) (j-1) fuel

/-- Go `partitionEqual_func(data, a, b, pivot)`: partitions into elements
equal to the pivot followed by elements greater than it. -/
def partitionEqualFunc {α : Type} [Inhabited α] (lt : α → α → Bool) (d : List α)
    (a b pivot : Nat) : List α × Nat :=
  let d := swapE d a pivot
  partEqLoop lt a d (a+1) (b-1) (b+2)

/-- Go `pdqsort_func(data, a, b, limit)`: the pattern-defeating quicksort
behind `sort.Slice`. The loop of the Go original is the tail-recursive call
with updated `a`, `b`, `limit`, `wasBalanced`, `wasPartitioned`; the genuine
recursive call into the smaller side starts with fresh balance state, exactly
as a fresh Go invocation does. One unit of fuel corresponds to one loop
iteration; every terminating Go run is reproduced with fuel at least twice
the slice length. -/
def pdqsortRec {α : Type} [Inhabited α] (lt : α → α → Bool) (d : List α)
    (a b limit : Nat) (wasBalanced wasPartitioned : Bool) : Nat → List α
  | 0 => d
  | fuel+1 =>
    let length := b - a
    if length ≤ 12 then insertionSortFunc lt d a b
    else if limit = 0 then heapSortFunc lt d a b
    else
      let (d, limit) :=
        if !wasBalanced then (breakPatternsFunc d a b, limit - 1) else (d, limit)
      let (pivot, hint) := choosePivotFunc lt d a b
      let (d, pivot, hint) :=
        if hint = .decreasingHint then
          (reverseRangeFunc d a b, (b-1) - (pivot - a), SortedHint.increasingHint)
        else (d, pivot, hint)
      let (sortedNow, d) :=
        if wasBalanced && wasPartitioned && hint = .increasingHint then
          partialInsertionSortFunc lt d a b
        else (false, d)
      if sortedNow then d
      else if 0 < a && !lt (getE d (a-1)) (getE d pivot) then
        let (d, mid) := partitionEqualFunc lt d a b pivot
        pdqsortRec lt d mid b limit wasBalanced wasPartitioned fuel
      else
        let (d, mid, alreadyPartitioned) := partitionFunc lt d a b pivot
        let wasPartitioned := alreadyPartitioned
        let leftLen := mid - a
        let rightLen := b - mid
        let balanceThreshold := length / 8
        let wasBalanced := decide (balanceThreshold ≤ min leftLen rightLen)
        if leftLen < rightLen then
          let d := pdqsortRec lt d a mid limit true true fuel
          pdqsortRec lt d (mid+1) b limit wasBalanced wasPartitioned fuel
        else
          let d := pdqsortRec lt d (mid+1) b limit true true fuel
          pdqsortRec lt d a mid limit wasBalanced wasPartitioned fuel

/-- Translation of Go `sort.Slice` (Go 1.19 and later): sorts the whole slice
with pdqsort, with recursion budget `limit = bits.Len(uint(length))`. -/
def sortSliceGo {α : Type} [Inhabited α] (lt : α → α → Bool) (d : List α) : List α :=
  pdqsortRec lt d 0 d.length (goBitsLen d.length) true true (2 * d.length + 2)

/-- Translation of `showEcho` (apigateway.go:187-202): copies the (method,
path) pairs handed back by the route enumeration and sorts them in place with
`sort.Slice` comparing paths; the result is printed one route per line. The
enumeration order is the input. -/
def showEcho (enumerated : List Route) : List Route :=
  sortSliceGo routeLt enumerated

/-- Stable insertion of `x` into the reversed already-sorted prefix: walks
from the right end of the prefix, passing exactly the elements strictly
greater than `x`. This is what one inner-loop run of the Go insertion sort
does to the processed segment. -/
def insRevSeg {α : Type} (lt : α → α → Bool) (x : α) : List α → List α
  | [] => [x]
  | p :: rest => if lt x p then p :: insRevSeg lt x rest else x :: p :: rest

/-- Structural form of the Go insertion sort: processed prefix plus remaining
elements. -/
def insStructAux {α : Type} (lt : α → α → Bool) (acc : List α) : List α → List α
  | [] => acc
  | x :: rest => insStructAux lt ((insRevSeg lt x acc.reverse).reverse) rest

/-- Structural form of the Go insertion sort on a whole list. -/
def insStructSort {α : Type} (lt : α → α → Bool) : List α → List α
  | [] => []
  | x :: rest => insStructAux lt [x] rest

/-- Translation of `Run` (apigateway.go:44-47): prints the sorted route
listing, then binds and serves at "ip:port". -/
def Run (routes : List Route) (ip port : GoBytes) (o : StartOutcome) :
    List Route × Option GoErr × List LifecycleLog :=
  (showEcho routes, startEcho (formatAddr ip port) o)

/-- Two-ASCII-digit path for building concrete route tables. -/
def numPath (n : Nat) : GoBytes := [48 + n / 10, 48 + n % 10]

/-- Concrete 53-route enumeration: paths strictly descending except one
adjacent pair with the equal path "59", registered GET before POST. The
descending pattern drives Go pdqsort into its reverse-range path, which
reverses equal-path ties. -/
def cexRoutes : List Route :=
  ⟨bytes "M0", numPath 60⟩ ::
  ⟨bytes "GET", numPath 59⟩ ::
  ⟨bytes "POST", numPath 59⟩ ::
  (List.range 50).map (fun i => ⟨bytes "M", numPath (49 - i)⟩)

/-- Executable check that a route listing is in non-descending path order. -/
def sortedByPathB : List Route → Bool
  | [] => true
  | [_] => true
  | r :: s :: rest => !goStrLt s.p r.p && sortedByPathB (s :: rest)

theorem containsFrom_iff (sub s : GoBytes) : containsFrom sub s = true ↔ sub <:+: s := by
  induction s with
  | nil => simp [containsFrom, List.isEmpty_iff]
  | cons b rest ih =>
    simp [containsFrom, List.infix_cons_iff, ih, List.isPrefixOf_iff_prefix]

theorem goContains_iff (s sub : GoBytes) : goContains s sub = true ↔ sub <:+: s :=
  containsFrom_iff sub s

/-- C2: `isPrintableTextContent` returns true exactly when the content type
starts with "text/" or contains "json", "xml" or "html" as a case-sensitive
byte substring; in particular it returns false on the empty string. -/
theorem isPrintableTextContent_characterisation :
    (∀ ct : GoBytes, isPrintableTextContent ct = true ↔
      (bytes "text/" <+: ct ∨ bytes "json" <:+: ct ∨ bytes "xml" <:+: ct ∨
        bytes "html" <:+: ct)) ∧
    isPrintableTextContent [] = false := by
  refine ⟨fun ct => ?_, by decide⟩
  unfold isPrintableTextContent goHasPrefix
  split
  · next h =>
    simp only [true_iff]
    simp only [Bool.or_eq_true, List.isPrefixOf_iff_prefix, goContains_iff] at h
    tauto
  · next h =>
    simp only [Bool.false_eq_true, false_iff]
    simp only [Bool.or_eq_true, List.isPrefixOf_iff_prefix, goContains_iff] at h
    tauto

/-- Shared helper: lengths and prefix-hood of the shown previews. -/
theorem bodyDump_preview_facts (url rct req res ct r : GoBytes) :
    ((bodyDumpHandler url rct req res ct).reqShownField.length = min req.length 2000 ∧
      (bodyDumpHandler url rct req res ct).reqShownField <+: req) ∧
    ((bodyDumpHandler url rct req res ct).resShownField = some r →
      r.length = min res.length 2000 ∧ r <+: res) := by
  unfold bodyDumpHandler
  split
  · refine ⟨⟨?_, ?_⟩, ?_⟩
    · simp [BodyLogLine.reqShownField, List.length_take]
    · exact List.take_prefix _ _
    · intro h
      simp only [BodyLogLine.resShownField, Option.some.injEq] at h
      subst h
      refine ⟨?_, List.take_prefix _ _⟩
      simp [List.length_take]
  · refine ⟨⟨?_, ?_⟩, ?_⟩
    · simp [BodyLogLine.reqShownField, List.length_take]
    · exact List.take_prefix _ _
    · intro h
      simp [BodyLogLine.resShownField] at h

/-- C1: the request preview always, and the response preview whenever it is
shown, have length `min actualLength 2000` and are byte-exact prefixes of the
original body bytes. -/
theorem bodyDump_preview_exact (url rct req res ct r : GoBytes) :
    ((bodyDumpHandler url rct req res ct).reqShownField.length = min req.length 2000 ∧
      (bodyDumpHandler url rct req res ct).reqShownField <+: req) ∧
    ((bodyDumpHandler url rct req res ct).resShownField = some r →
      r.length = min res.length 2000 ∧ r <+: res) :=
  bodyDump_preview_facts url rct req res ct r

/-- Witness for C1 at a concrete printable response. -/
theorem bodyDump_preview_exact_witness :
    (bytes "ok").length = min (bytes "ok").length 2000 ∧ bytes "ok" <+: bytes "ok" :=
  (bodyDump_preview_exact (bytes "/u") (bytes "text/plain")
    (bytes "hello") (bytes "ok") (bytes "application/json") (bytes "ok")).2 (by decide)

/-- C3: the body-preview line is decided by the response content type (and
response emptiness) only: the placeholder form is used exactly when the
response content type is non-printable and the response body is non-empty; the
request preview is emitted verbatim in both forms; the placeholder names the
response content type; an empty response body never yields the placeholder;
and the line does not depend on the request content type. -/
theorem bodyDump_decision (url rct rct' req res ct : GoBytes) :
    ((bodyDumpHandler url rct req res ct).isNonPrintableLine
        = (!isPrintableTextContent ct && !res.isEmpty)) ∧
    (bodyDumpHandler url rct req res ct).reqShownField
        = req.take (min req.length 2000) ∧
    (bodyDumpHandler url rct req res ct).resShownField
        = (if isPrintableTextContent ct || res.isEmpty then
            some (res.take (min res.length 2000)) else none) ∧
    (bodyDumpHandler url rct req res ct).namedContentType
        = (if isPrintableTextContent ct || res.isEmpty then none else some ct) ∧
    (res.isEmpty = true →
      (bodyDumpHandler url rct req res ct).isNonPrintableLine = false) ∧
    bodyDumpHandler url rct req res ct = bodyDumpHandler url rct' req res ct := by
  unfold bodyDumpHandler
  have hempty : (res.length == 0) = res.isEmpty := by
    cases res <;> rfl
  rw [hempty]
  cases hp : isPrintableTextContent ct <;> cases he : res.isEmpty <;>
    simp [BodyLogLine.isNonPrintableLine, BodyLogLine.reqShownField,
      BodyLogLine.resShownField, BodyLogLine.namedContentType]

/-- Witness for C3 at a concrete empty response body. -/
theorem bodyDump_decision_witness :
    (bodyDumpHandler (bytes "/u") (bytes "text/plain") (bytes "abc") []
      (bytes "application/octet-stream")).isNonPrintableLine = false :=
  (bodyDump_decision (bytes "/u") (bytes "text/plain") (bytes "x") (bytes "abc") []
    (bytes "application/octet-stream")).2.2.2.2.1 (by decide)

/-- C4: the recorder retains at most 2000 bytes per direction: the shown
request preview, and the shown response preview when present, never exceed
2000 bytes, whatever the true body sizes. -/
theorem bodyDump_buffer_bound (url rct req res ct r : GoBytes) :
    (bodyDumpHandler url rct req res ct).reqShownField.length ≤ 2000 ∧
    ((bodyDumpHandler url rct req res ct).resShownField = some r →
      r.length ≤ 2000) := by
  refine ⟨?_, fun h => ?_⟩
  · have := (bodyDump_preview_facts url rct req res ct r).1.1
    omega
  · have := (bodyDump_preview_facts url rct req res ct r).2 h
    omega

/-- Witness for C4 at a concrete oversized body. -/
theorem bodyDump_buffer_bound_witness :
    (bodyDumpHandler (bytes "/u") (bytes "a") (bytes "bb") (bytes "cc")
      (bytes "application/json")).reqShownField.length ≤ 2000 ∧ (bytes "cc").length ≤ 2000 :=
  ⟨(bodyDump_buffer_bound (bytes "/u") (bytes "a") (bytes "bb") (bytes "cc")
      (bytes "application/json") (bytes "cc")).1,
    (bodyDump_buffer_bound (bytes "/u") (bytes "a") (bytes "bb") (bytes "cc")
      (bytes "application/json") (bytes "cc")).2 (by decide)⟩

/-- C6: construction returns an error and no gateway exactly when the level
string is unrecognised; the error carries that level string and level parsing
is the only error source; and a successful construction returns a gateway
whose logger and middleware are fully configured. -/
theorem New_config_error_iff (w : World) (lc : LogConfig) :
    ((New w lc).1 = .error lc.Level ↔ parseLevel lc.Level = none) ∧
    (∀ e, (New w lc).1 = .error e → e = lc.Level ∧ parseLevel lc.Level = none) ∧
    (∀ g, (New w lc).1 = .ok g →
      parseLevel lc.Level = some g.logger.level ∧
      g.logger.formatter = { quoteEmptyFields := true } ∧
      g.echo.bodyDumpTarget ≠ none ∧
      g.echo.accessLogOutput ≠ none ∧
      g.echo.cors ≠ none) := by
  cases h : parseLevel lc.Level with
  | none => simp [New, initAccessLog, h]
  | some lv =>
    refine ⟨by simp [New, initAccessLog, h], by simp [New, initAccessLog, h], ?_⟩
    intro g hg
    simp only [New, initAccessLog, h] at hg
    split_ifs at hg <;>
      simp only [Except.ok.injEq] at hg <;>
      subst hg <;>
      simp [configEcho, h]

/-- Witness for C6: level "bogus" is rejected with the construction error. -/
theorem New_config_error_iff_witness :
    (New { globalLogger := logNew }
        { Output := [], Level := bytes "bogus", Size := 1, BackNum := 2, AgeDays := 3 }).1
      = .error (bytes "bogus") :=
  (New_config_error_iff { globalLogger := logNew }
    { Output := [], Level := bytes "bogus", Size := 1, BackNum := 2, AgeDays := 3 }).1.mpr
    (by decide)

/-- C7: the configured sink is stdout for "stdout", stderr for "stderr",
stdout for the empty string, and otherwise the rotating file writer carrying
the config's size limit, backup count and age limit, with compression and
local time enabled unconditionally. -/
theorem initAccessLog_sink_selection (prev : Option LoggerState) (lc : LogConfig)
    (l : LoggerState) (h : initAccessLog prev lc = .ok l) :
    (lc.Output = bytes "stdout" → l.out = .stdoutSink) ∧
    (lc.Output = bytes "stderr" → l.out = .stderrSink) ∧
    (lc.Output = [] → l.out = .stdoutSink) ∧
    (lc.Output ≠ bytes "stdout" → lc.Output ≠ bytes "stderr" → lc.Output ≠ [] →
      l.out = .fileSink lc.Output lc.Size lc.BackNum lc.AgeDays true true) := by
  unfold initAccessLog at h
  cases hp : parseLevel lc.Level <;> rw [hp] at h
  · exact absurd h (by simp)
  · split_ifs at h <;> simp only [Except.ok.injEq] at h <;> subst h <;> simp_all <;> decide

/-- Witness for C7 at a concrete file-path output. -/
theorem initAccessLog_sink_selection_witness :
    ({ out := Sink.fileSink (bytes "/var/log/gw.log") 7 8 9 true true,
       level := LogLevel.infoLevel,
       formatter := { quoteEmptyFields := true } } : LoggerState).out
      = Sink.fileSink (bytes "/var/log/gw.log") 7 8 9 true true :=
  (initAccessLog_sink_selection none
      { Output := bytes "/var/log/gw.log", Level := bytes "info",
        Size := 7, BackNum := 8, AgeDays := 9 }
      _ (by decide)).2.2.2 (by decide) (by decide) (by decide)

/-- C10: construction configures destination, level and formatter only on the
gateway's own logger; the body-preview hook and the access-line middleware
write through the package-global standard logger (the latter to the global
logger's writer as captured at configuration time); and construction leaves
the global logger, including its level and formatter, unchanged. -/
theorem New_logger_separation (w : World) (lc : LogConfig) :
    (New w lc).2 = w ∧
    (∀ g, (New w lc).1 = .ok g →
      requestLogWriteTargets g = [.globalStd, .globalStd] ∧
      g.echo.bodyDumpTarget = some .globalStd ∧
      g.echo.accessLogOutput = some w.globalLogger.out ∧
      parseLevel lc.Level = some g.logger.level ∧
      g.logger.formatter = { quoteEmptyFields := true }) := by
  refine ⟨?_, ?_⟩
  · cases h : parseLevel lc.Level <;> simp [New, initAccessLog, h]
  · intro g hg
    cases h : parseLevel lc.Level with
    | none => simp [New, initAccessLog, h] at hg
    | some lv =>
      simp only [New, initAccessLog, h] at hg
      split_ifs at hg <;>
        simp only [Except.ok.injEq] at hg <;>
        subst hg <;>
        simp [configEcho, requestLogWriteTargets, h]

/-- Witness for C10 at a concrete configuration. -/
theorem New_logger_separation_witness :
    requestLogWriteTargets
        { echo := configEcho { globalLogger := logNew } echoNew,
          logger := { out := .stderrSink, level := .debugLevel,
                      formatter := { quoteEmptyFields := true } } }
      = [.globalStd, .globalStd] :=
  ((New_logger_separation { globalLogger := logNew }
      { Output := bytes "stderr", Level := bytes "debug",
        Size := 1, BackNum := 2, AgeDays := 3 }).2 _ (by decide)).1

/-- C8: Stop returns within the fixed 5-second grace period (it never blocks
indefinitely); the server is stopped unconditionally afterwards; the
clean-vs-forced outcome is logged (the error line appears exactly on a forced
shutdown); and Stop before Start, as well as a second Stop, are no-ops that
block no time and report no error. -/
theorem Stop_bounded_and_idempotent (s : EchoSrv) :
    (Stop s).2.2 ≤ shutdownGraceSeconds ∧
    (Stop s).1.phase = .stopped ∧
    ((Stop s).2.1.contains .failedToClose
      = (decide (s.phase = .serving) && decide (shutdownGraceSeconds < s.drainSeconds))) ∧
    (s.phase = .unstarted →
      (Stop s).2.1 = [.closeService] ∧ (Stop s).2.2 = 0) ∧
    ((Stop (Stop s).1).2.1 = [.closeService] ∧ (Stop (Stop s).1).2.2 = 0) := by
  cases hp : s.phase <;>
    simp [Stop, shutdownEcho, echoShutdownModel, hp, shutdownGraceSeconds] <;>
    split_ifs <;>
    simp_all [List.contains]

/-- Witness for C8: Stop on a never-started server. -/
theorem Stop_bounded_and_idempotent_witness :
    (Stop { phase := .unstarted, drainSeconds := 0 }).2.1 = [.closeService] ∧
    (Stop { phase := .unstarted, drainSeconds := 0 }).2.2 = 0 :=
  (Stop_bounded_and_idempotent { phase := .unstarted, drainSeconds := 0 }).2.2.2.1 rfl

/-- C9 (code bug, evaluated at the failing input): after a successful bind
followed by a graceful shutdown the underlying start call returns
ErrServerClosed, so `startEcho` logs the failed-to-bind line and returns that
error; in no outcome of the underlying call is the started-listening success
line ever logged; the address formatting itself is as claimed. -/
theorem startEcho_success_line_unreachable :
    (∀ ip port : GoBytes,
      startEcho (formatAddr ip port) .servedThenClosed
        = (some .errServerClosed, [.failedToBind (ip ++ bytes ":" ++ port)])) ∧
    (∀ (addr : GoBytes) (o : StartOutcome),
      (startEcho addr o).2.all (fun m => !m.isStartedLine) = true) ∧
    (∀ ip port : GoBytes, formatAddr ip port = ip ++ bytes ":" ++ port) := by
  refine ⟨fun ip port => rfl, fun addr o => ?_, fun ip port => rfl⟩
  cases o <;> rfl

theorem goStrLt_irrefl (a : GoBytes) : goStrLt a a = false := by
  induction a with
  | nil => rfl
  | cons x xs ih => simp [goStrLt, ih]

theorem goStrLt_asym {a b : GoBytes} (h : goStrLt a b = true) : goStrLt b a = false := by
  induction a generalizing b with
  | nil =>
    cases b with
    | nil => simp [goStrLt] at h
    | cons y ys => simp [goStrLt]
  | cons x xs ih =>
    cases b with
    | nil => simp [goStrLt] at h
    | cons y ys =>
      simp only [goStrLt] at h ⊢
      rcases Nat.lt_trichotomy x y with hxy | hxy | hxy
      · rw [if_neg (by omega), if_pos hxy]
      · subst hxy
        rw [if_neg (by omega), if_neg (by omega)] at h ⊢
        exact ih h
      · rw [if_neg (by omega), if_pos hxy] at h
        exact absurd h (by simp)

theorem goStrLt_trans {a b c : GoBytes} (hab : goStrLt a b = true)
    (hbc : goStrLt b c = true) : goStrLt a c = true := by
  induction a generalizing b c with
  | nil =>
    cases b with
    | nil => simp [goStrLt] at hab
    | cons y ys =>
      cases c with
      | nil => simp [goStrLt] at hbc
      | cons z zs => simp [goStrLt]
  | cons x xs ih =>
    cases b with
    | nil => simp [goStrLt] at hab
    | cons y ys =>
      cases c with
      | nil => simp [goStrLt] at hbc
      | cons z zs =>
        simp only [goStrLt] at hab hbc ⊢
        rcases Nat.lt_trichotomy x y with hxy | hxy | hxy
        · rcases Nat.lt_trichotomy y z with hyz | hyz | hyz
          · rw [if_pos (Nat.lt_trans hxy hyz)]
          · subst hyz
            rw [if_pos hxy]
          · rw [if_neg (by omega), if_pos hyz] at hbc
            exact absurd hbc (by simp)
        · subst hxy
          rw [if_neg (by omega), if_neg (by omega)] at hab
          rcases Nat.lt_trichotomy x z with hxz | hxz | hxz
          · rw [if_pos hxz]
          · subst hxz
            rw [if_neg (by omega), if_neg (by omega)] at hbc
            rw [if_neg (by omega), if_neg (by omega)]
            exact ih hab hbc
          · rw [if_neg (by omega), if_pos hxz] at hbc
            exact absurd hbc (by simp)
        · rw [if_neg (by omega), if_pos hxy] at hab
          exact absurd hab (by simp)

theorem goStrLt_connex {a b : GoBytes} (hab : goStrLt a b = false)
    (hba : goStrLt b a = false) : a = b := by
  induction a generalizing b with
  | nil =>
    cases b with
    | nil => rfl
    | cons y ys => simp [goStrLt] at hab
  | cons x xs ih =>
    cases b with
    | nil => simp [goStrLt] at hba
    | cons y ys =>
      simp only [goStrLt] at hab hba
      rcases Nat.lt_trichotomy x y with h | h | h
      · rw [if_pos h] at hab
        exact absurd hab (by simp)
      · subst h
        rw [if_neg (by omega), if_neg (by omega)] at hab hba
        rw [ih hab hba]
      · rw [if_pos h] at hba
        exact absurd hba (by simp)

theorem goStrLt_negTrans {a b c : GoBytes} (hab : goStrLt a b = false)
    (hbc : goStrLt b c = false) : goStrLt a c = false := by
  cases hac : goStrLt a c with
  | false => rfl
  | true =>
    exfalso
    cases hba : goStrLt b a with
    | false =>
      have : a = b := goStrLt_connex hab hba
      subst this
      simp_all
    | true =>
      have := goStrLt_trans hba hac
      simp_all

theorem getE_append_len {α : Type} [Inhabited α] (l1 : List α) (a : α) (l2 : List α) :
    getE (l1 ++ a :: l2) l1.length = a := by
  induction l1 with
  | nil => rfl
  | cons c cs ih => simpa [getE] using ih

theorem getE_append_len_succ {α : Type} [Inhabited α] (l1 : List α) (a b : α)
    (l2 : List α) : getE (l1 ++ a :: b :: l2) (l1.length + 1) = b := by
  induction l1 with
  | nil => rfl
  | cons c cs ih => simpa [getE] using ih

theorem set_append_len {α : Type} (l1 : List α) (a : α) (l2 : List α) (c : α) :
    (l1 ++ a :: l2).set l1.length c = l1 ++ c :: l2 := by
  induction l1 with
  | nil => rfl
  | cons x xs ih => simpa using ih

theorem set_append_len_succ {α : Type} (l1 : List α) (a b : α) (l2 : List α) (c : α) :
    (l1 ++ a :: b :: l2).set (l1.length + 1) c = l1 ++ a :: c :: l2 := by
  induction l1 with
  | nil => rfl
  | cons x xs ih => simpa using ih

theorem swapE_adjacent {α : Type} [Inhabited α] (l1 : List α) (a b : α) (l2 : List α) :
    swapE (l1 ++ a :: b :: l2) (l1.length + 1) l1.length = l1 ++ b :: a :: l2 := by
  unfold swapE
  rw [getE_append_len, getE_append_len_succ, set_append_len_succ, set_append_len]

theorem insSortInner_seg {α : Type} [Inhabited α] (lt : α → α → Bool)
    (rpre : List α) (x : α) (suf : List α) :
    insSortInner lt 0 (rpre.reverse ++ x :: suf) rpre.length
      = (insRevSeg lt x rpre).reverse ++ suf := by
  induction rpre generalizing suf with
  | nil => rfl
  | cons p rest ih =>
    have hlen2 : rest.reverse.length = rest.length := by simp
    have hrev : (p :: rest).reverse ++ x :: suf = rest.reverse ++ p :: x :: suf := by simp
    rw [show (p :: rest).length = rest.length + 1 from rfl, hrev]
    unfold insSortInner
    rw [← hlen2]
    rw [getE_append_len_succ rest.reverse p x suf, getE_append_len rest.reverse p (x :: suf)]
    cases hlt : lt x p with
    | true =>
      rw [if_pos (by simp [hlt])]
      rw [swapE_adjacent rest.reverse p x suf, hlen2, ih (p :: suf)]
      have hseg : insRevSeg lt x (p :: rest) = p :: insRevSeg lt x rest := by
        simp only [insRevSeg, if_pos hlt]
      rw [hseg]
      simp
    | false =>
      rw [if_neg (by simp [hlt])]
      have hseg : insRevSeg lt x (p :: rest) = x :: p :: rest := by
        simp only [insRevSeg, hlt, Bool.false_eq_true, if_false]
      rw [hseg]
      simp

theorem insRevSeg_length {α : Type} (lt : α → α → Bool) (x : α) (rpre : List α) :
    (insRevSeg lt x rpre).length = rpre.length + 1 := by
  induction rpre with
  | nil => rfl
  | cons p rest ih =>
    simp only [insRevSeg]
    split <;> simp [ih]

theorem insSortOuter_eq_struct {α : Type} [Inhabited α] (lt : α → α → Bool)
    (rest : List α) : ∀ (acc : List α) (fuel : Nat), rest.length ≤ fuel →
    insSortOuter lt 0 (acc ++ rest).length (acc ++ rest) acc.length fuel
      = insStructAux lt acc rest := by
  induction rest with
  | nil =>
    intro acc fuel _
    cases fuel with
    | zero => simp [insSortOuter, insStructAux]
    | succ f =>
      simp only [insSortOuter]
      rw [if_neg (by simp)]
      simp [insStructAux]
  | cons x rest' ih =>
    intro acc fuel hfuel
    cases fuel with
    | zero => exact absurd hfuel (by simp)
    | succ f =>
      simp only [insSortOuter]
      rw [if_pos (by simp)]
      have hinner : insSortInner lt 0 (acc ++ x :: rest') acc.length
          = (insRevSeg lt x acc.reverse).reverse ++ rest' := by
        have h := insSortInner_seg lt acc.reverse x rest'
        simpa using h
      rw [hinner]
      have hblen : (acc ++ x :: rest').length
          = ((insRevSeg lt x acc.reverse).reverse ++ rest').length := by
        simp [insRevSeg_length]
        omega
      rw [hblen, show acc.length + 1
          = ((insRevSeg lt x acc.reverse).reverse).length by simp [insRevSeg_length]]
      rw [ih _ f (by simpa using Nat.le_of_succ_le_succ (by simpa using hfuel))]
      simp only [insStructAux]

theorem insertionSortFunc_eq_struct {α : Type} [Inhabited α] (lt : α → α → Bool)
    (d : List α) : insertionSortFunc lt d 0 d.length = insStructSort lt d := by
  cases d with
  | nil => rfl
  | cons x rest =>
    have h := insSortOuter_eq_struct lt rest [x] (x :: rest).length (by simp)
    simpa [insertionSortFunc, insStructSort] using h

theorem sortSliceGo_small {α : Type} [Inhabited α] (lt : α → α → Bool) (d : List α)
    (h : d.length ≤ 12) : sortSliceGo lt d = insStructSort lt d := by
  have hstep : sortSliceGo lt d = insertionSortFunc lt d 0 d.length := by
    unfold sortSliceGo
    rw [show 2 * d.length + 2 = (2 * d.length + 1) + 1 from rfl]
    rw [pdqsortRec]
    rw [if_pos (by simpa using h)]
  rw [hstep, insertionSortFunc_eq_struct]

theorem insRevSeg_perm {α : Type} (lt : α → α → Bool) (x : α) (rpre : List α) :
    List.Perm (insRevSeg lt x rpre) (x :: rpre) := by
  induction rpre with
  | nil => exact List.Perm.refl _
  | cons p rest ih =>
    simp only [insRevSeg]
    split
    · exact (ih.cons p).trans (List.Perm.swap' x p (List.Perm.refl rest))
    · exact List.Perm.refl _

theorem insRevSeg_pairwise {α : Type} {lt : α → α → Bool}
    (hAsym : ∀ x y, lt x y = true → lt y x = false)
    (hNegTrans : ∀ x y z, lt x y = false → lt y z = false → lt x z = false)
    (x : α) {rpre : List α} (h : rpre.Pairwise (fun y z => lt y z = false)) :
    (insRevSeg lt x rpre).Pairwise (fun y z => lt y z = false) := by
  induction rpre with
  | nil => simp [insRevSeg]
  | cons p rest ih =>
    rcases List.pairwise_cons.mp h with ⟨hp, hrest⟩
    simp only [insRevSeg]
    split
    · next hlt =>
      refine List.pairwise_cons.mpr ⟨?_, ih hrest⟩
      intro y hy
      rcases List.mem_cons.mp ((insRevSeg_perm lt x rest).mem_iff.mp hy) with hy | hy
      · subst hy
        exact hAsym _ _ hlt
      · exact hp y hy
    · next hlt =>
      have hxp : lt x p = false := by
        cases hv : lt x p
        · rfl
        · exact absurd hv hlt
      refine List.pairwise_cons.mpr ⟨?_, h⟩
      intro y hy
      rcases List.mem_cons.mp hy with hy | hy
      · subst hy
        exact hxp
      · exact hNegTrans x p y hxp (hp y hy)

theorem insRevSeg_filter {α : Type} (lt : α → α → Bool) (q : α → Bool) (x : α)
    (hq : ∀ p, q x = true → q p = true → lt x p = false) (rpre : List α) :
    ((insRevSeg lt x rpre).reverse).filter q
      = (rpre.reverse.filter q) ++ (if q x then [x] else []) := by
  induction rpre with
  | nil =>
    simp [insRevSeg, List.filter_cons]
  | cons p rest ih =>
    simp only [insRevSeg]
    split
    · next hlt =>
      have hnot : ¬(q x = true ∧ q p = true) := by
        rintro ⟨h1, h2⟩
        rw [hq p h1 h2] at hlt
        exact Bool.false_ne_true hlt
      simp only [List.reverse_cons, List.filter_append, ih]
      cases hqx : q x with
      | true =>
        cases hqp : q p with
        | true => exact absurd ⟨hqx, hqp⟩ hnot
        | false => simp [List.filter_cons, hqx, hqp]
      | false =>
        cases hqp : q p with
        | true => simp [List.filter_cons, hqx, hqp]
        | false => simp [List.filter_cons, hqx, hqp]
    · next _hlt =>
      simp only [List.reverse_cons, List.filter_append, List.filter_cons]
      cases hqx : q x <;> cases hqp : q p <;> simp [hqx, hqp]

theorem insStructAux_perm {α : Type} (lt : α → α → Bool) (rest : List α) :
    ∀ acc : List α, List.Perm (insStructAux lt acc rest) (acc ++ rest) := by
  induction rest with
  | nil =>
    intro acc
    simp [insStructAux]
  | cons x rest' ih =>
    intro acc
    simp only [insStructAux]
    refine (ih _).trans ?_
    have hnew : List.Perm ((insRevSeg lt x acc.reverse).reverse) (x :: acc) := by
      refine (List.reverse_perm _).trans ?_
      exact (insRevSeg_perm lt x acc.reverse).trans ((List.reverse_perm acc).cons x)
    refine (hnew.append_right rest').trans ?_
    exact List.perm_middle.symm

theorem insStructAux_pairwise {α : Type} {lt : α → α → Bool}
    (hAsym : ∀ x y, lt x y = true → lt y x = false)
    (hNegTrans : ∀ x y z, lt x y = false → lt y z = false → lt x z = false)
    (rest : List α) :
    ∀ acc : List α, acc.reverse.Pairwise (fun y z => lt y z = false) →
      (insStructAux lt acc rest).Pairwise (fun y z => lt z y = false) := by
  induction rest with
  | nil =>
    intro acc hacc
    simp only [insStructAux]
    exact List.pairwise_reverse.mp hacc
  | cons x rest' ih =>
    intro acc hacc
    simp only [insStructAux]
    refine ih _ ?_
    rw [List.reverse_reverse]
    exact insRevSeg_pairwise hAsym hNegTrans x hacc

theorem insStructAux_filter {α : Type} {lt : α → α → Bool} (q : α → Bool)
    (hq : ∀ x p, q x = true → q p = true → lt x p = false) (rest : List α) :
    ∀ acc : List α, (insStructAux lt acc rest).filter q
      = acc.filter q ++ rest.filter q := by
  induction rest with
  | nil =>
    intro acc
    simp [insStructAux]
  | cons x rest' ih =>
    intro acc
    simp only [insStructAux]
    rw [ih]
    have hseg := insRevSeg_filter lt q x (hq x) acc.reverse
    rw [List.reverse_reverse] at hseg
    rw [hseg, List.filter_cons]
    cases hqx : q x <;> simp [hqx]

theorem insStructSort_perm {α : Type} (lt : α → α → Bool) (l : List α) :
    List.Perm (insStructSort lt l) l := by
  cases l with
  | nil => exact List.Perm.refl _
  | cons x rest => simpa using insStructAux_perm lt rest [x]

theorem insStructSort_pairwise {α : Type} {lt : α → α → Bool}
    (hAsym : ∀ x y, lt x y = true → lt y x = false)
    (hNegTrans : ∀ x y z, lt x y = false → lt y z = false → lt x z = false)
    (l : List α) :
    (insStructSort lt l).Pairwise (fun y z => lt z y = false) := by
  cases l with
  | nil => simp [insStructSort]
  | cons x rest =>
    exact insStructAux_pairwise hAsym hNegTrans rest [x] (by simp)

theorem insStructSort_filter {α : Type} {lt : α → α → Bool} (q : α → Bool)
    (hq : ∀ x p, q x = true → q p = true → lt x p = false) (l : List α) :
    (insStructSort lt l).filter q = l.filter q := by
  cases l with
  | nil => rfl
  | cons x rest =>
    simp only [insStructSort]
    rw [insStructAux_filter q hq, List.filter_cons]
    cases hqx : q x <;> simp [hqx]

/-- C5 (amended): for listings of at most 12 routes — where Go `sort.Slice`
runs its insertion sort — `showEcho` outputs a permutation of the enumerated
routes, sorted ascending by path, with equal-path ties kept in enumeration
order (every path class is preserved verbatim); for longer listings the sort
is not stable and the tie order is not guaranteed; enumerating GET /b and
POST /a in either order yields [{POST,/a},{GET,/b}]. -/
theorem showEcho_sorted_stable_small :
    (∀ l : List Route, l.length ≤ 12 →
      (showEcho l).Pairwise (fun r s => goStrLt s.p r.p = false) ∧
      List.Perm (showEcho l) l ∧
      (∀ P : GoBytes, (showEcho l).filter (fun r => r.p == P)
          = l.filter (fun r => r.p == P))) ∧
    showEcho [⟨bytes "GET", bytes "/b"⟩, ⟨bytes "POST", bytes "/a"⟩]
        = [⟨bytes "POST", bytes "/a"⟩, ⟨bytes "GET", bytes "/b"⟩] ∧
    showEcho [⟨bytes "POST", bytes "/a"⟩, ⟨bytes "GET", bytes "/b"⟩]
        = [⟨bytes "POST", bytes "/a"⟩, ⟨bytes "GET", bytes "/b"⟩] := by
  refine ⟨fun l hl => ?_, by decide, by decide⟩
  have hs : showEcho l = insStructSort routeLt l := sortSliceGo_small routeLt l hl
  have hAsym : ∀ x y : Route, routeLt x y = true → routeLt y x = false :=
    fun x y h => goStrLt_asym h
  have hNegTrans : ∀ x y z : Route, routeLt x y = false → routeLt y z = false →
      routeLt x z = false := fun x y z h1 h2 => goStrLt_negTrans h1 h2
  refine ⟨?_, ?_, ?_⟩
  · rw [hs]
    exact insStructSort_pairwise hAsym hNegTrans l
  · rw [hs]
    exact insStructSort_perm routeLt l
  · intro P
    rw [hs]
    refine insStructSort_filter _ ?_ l
    intro x p h1 h2
    have hx : x.p = P := by simpa using h1
    have hp : p.p = P := by simpa using h2
    show goStrLt x.p p.p = false
    rw [hx, hp]
    exact goStrLt_irrefl P

/-- Witness for C5 (amended) at the two-route example. -/
theorem showEcho_sorted_stable_small_witness :
    (showEcho [⟨bytes "GET", bytes "/b"⟩, ⟨bytes "POST", bytes "/a"⟩]).Pairwise
      (fun r s => goStrLt s.p r.p = false) ∧
    (showEcho [⟨bytes "GET", bytes "/b"⟩, ⟨bytes "POST", bytes "/a"⟩]).filter
        (fun r => r.p == bytes "/a")
      = [⟨bytes "GET", bytes "/b"⟩, ⟨bytes "POST", bytes "/a"⟩].filter
        (fun r => r.p == bytes "/a") :=
  ⟨(showEcho_sorted_stable_small.1
      [⟨bytes "GET", bytes "/b"⟩, ⟨bytes "POST", bytes "/a"⟩] (by decide)).1,
   (showEcho_sorted_stable_small.1
      [⟨bytes "GET", bytes "/b"⟩, ⟨bytes "POST", bytes "/a"⟩] (by decide)).2.2
     (bytes "/a")⟩

/-- C5 (counterexample): on this 53-route enumeration the listing comes out
sorted by path, but the two routes with the equal path "59" appear in the
order POST, GET although they were enumerated GET, POST — ties are not broken
by original registration order (Go `sort.Slice` is not stable; this run
reverses the whole range via its decreasing-pattern detection). The listing
is longer than 12 routes, outside the insertion-sort regime. -/
theorem showEcho_tie_break_counterexample :
    cexRoutes.filter (fun r => r.p == numPath 59)
      = [⟨bytes "GET", numPath 59⟩, ⟨bytes "POST", numPath 59⟩] ∧
    (showEcho cexRoutes).filter (fun r => r.p == numPath 59)
      = [⟨bytes "POST", numPath 59⟩, ⟨bytes "GET", numPath 59⟩] ∧
    sortedByPathB (showEcho cexRoutes) = true ∧
    12 < cexRoutes.length := by
  refine ⟨by decide, by decide, by decide, by decide⟩
